import Mathlib

/-!
Verification of the HuggingFace cache manager (`bin/hf_cache_manager.py`).

The development shallowly embeds the parts of the program that the
properties below are about:

* the naming codec (Python `str.replace`-based encoding/decoding of
  model and dataset identifiers to on-disk directory names),
* the stale-artifact scanner and the `clean` operation over an abstract
  filesystem state,
* cache-root resolution (`HFCacheManager.__init__`),
* `setup_environment` over an abstract process environment,
* the batch ingestion loop of `download_from_file`, and
* `verify_offline_ready`.

Strings are handled through their underlying character lists so that
every definition is executable and every concrete instance can be
settled by `decide`.
-/

/-! ## Python `str.replace` on character lists

`replF pat rep fuel s` replaces non-overlapping occurrences of `pat`
in `s` by `rep`, scanning left to right, exactly as Python's
`str.replace` does for a nonempty pattern.  The fuel argument (always
instantiated with `s.length`, which suffices) makes the recursion
structural so that concrete instances reduce in the kernel. -/

def replF (pat rep : List Char) : Nat → List Char → List Char
  | _, [] => []
  | 0, s => s
  | fuel+1, c :: rest =>
    if pat.isPrefixOf (c :: rest) then
      rep ++ replF pat rep fuel (rest.drop (pat.length - 1))
    else
      c :: replF pat rep fuel rest

/-- Python `s.replace(pat, rep)` for a nonempty pattern `pat`. -/
def replaceAll (pat rep s : List Char) : List Char :=
  replF pat rep s.length s

/-- String-level wrapper of `replaceAll`. -/
def strReplace (s pat rep : String) : String :=
  String.mk (replaceAll pat.data rep.data s.data)

/-- Python `s.startswith (p)` (literal prefix test). -/
def sStartsWith (s p : String) : Bool :=
  p.data.isPrefixOf s.data

/-- Python `s.endswith (p)` (literal suffix test). -/
def sEndsWith (s p : String) : Bool :=
  p.data.isSuffixOf s.data

/-! ## Naming codec

`verify_offline_ready` (line 624) encodes a model identifier
`namespace/name` as `"models--" + model_name.replace("/", "--")`;
`print_cache_status` (line 514) decodes a hub directory name via
`name.replace("models--", "").replace("--", "/")`.  Dataset
identifiers are encoded by `dataset_name.replace("/", "___")`
(line 641). -/

def encodeModel (ns nm : String) : String :=
  "models--" ++ strReplace (ns ++ "/" ++ nm) "/" "--"

def decodeModel (enc : String) : String :=
  strReplace (strReplace enc "models--" "") "--" "/"

def encodeDataset (dsName : String) : String :=
  strReplace dsName "/" "___"

/-! ## Lemmas about `replF` / `replaceAll` -/

theorem replF_nil (pat rep : List Char) (f : Nat) : replF pat rep f [] = [] := by
  cases f <;> rfl

theorem replF_succ_cons (pat rep : List Char) (f : Nat) (c : Char) (rest : List Char) :
    replF pat rep (f+1) (c :: rest) =
      if pat.isPrefixOf (c :: rest) then
        rep ++ replF pat rep f (rest.drop (pat.length - 1))
      else
        c :: replF pat rep f rest := rfl

/-- The fuel argument is irrelevant as soon as it dominates the length
of the scanned list. -/
theorem replF_fuel (pat rep : List Char) :
    ∀ (f f' : Nat) (s : List Char), s.length ≤ f → s.length ≤ f' →
      replF pat rep f s = replF pat rep f' s := by
  intro f
  induction f with
  | zero =>
    intro f' s hf _
    have hs : s = [] := List.eq_nil_of_length_eq_zero (Nat.le_zero.mp hf)
    subst hs
    rw [replF_nil, replF_nil]
  | succ f ih =>
    intro f' s hf hf'
    cases s with
    | nil => rw [replF_nil, replF_nil]
    | cons c rest =>
      cases f' with
      | zero => simp at hf'
      | succ f' =>
        rw [replF_succ_cons, replF_succ_cons]
        by_cases hp : pat.isPrefixOf (c :: rest)
        · rw [if_pos hp, if_pos hp]
          have hlen : (rest.drop (pat.length - 1)).length ≤ rest.length := by
            rw [List.length_drop]; omega
          have h1 : (rest.drop (pat.length - 1)).length ≤ f := by
            simp only [List.length_cons] at hf; omega
          have h2 : (rest.drop (pat.length - 1)).length ≤ f' := by
            simp only [List.length_cons] at hf'; omega
          rw [ih f' _ h1 h2]
        · rw [if_neg hp, if_neg hp]
          have h1 : rest.length ≤ f := by simp only [List.length_cons] at hf; omega
          have h2 : rest.length ≤ f' := by simp only [List.length_cons] at hf'; omega
          rw [ih f' _ h1 h2]

/-- Scanning walks over a block `a` in which no occurrence of the
pattern starts. -/
theorem replF_walk (pat rep : List Char) :
    ∀ (a b : List Char),
      (∀ t, t <:+ a → t ≠ [] → ¬ pat <+: (t ++ b)) →
      ∀ f, (a ++ b).length ≤ f →
        replF pat rep f (a ++ b) = a ++ replF pat rep (f - a.length) b := by
  intro a
  induction a with
  | nil => intro b _ f _; simp
  | cons c a ih =>
    intro b H f hf
    cases f with
    | zero => simp at hf
    | succ g =>
      have hp : ¬ pat.isPrefixOf ((c :: a) ++ b) := by
        intro hcontra
        exact H (c :: a) (List.suffix_refl _) (by simp)
          ( List.isPrefixOf_iff_prefix.mp hcontra)
      rw [List.cons_append, replF_succ_cons, if_neg (by simpa using hp)]
      have hrec := ih b
        (fun t ht hne => H t (ht.trans (List.suffix_cons c a)) hne) g
        (by simp only [List.length_append, List.length_cons] at hf ⊢; omega)
      rw [hrec]
      simp only [List.length_cons, List.cons_append]
      rw [Nat.succ_sub_succ]

/-- `replaceAll` distributes over a block in which no occurrence of
the pattern starts. -/
theorem replaceAll_walk (pat rep a b : List Char)
    (H : ∀ t, t <:+ a → t ≠ [] → ¬ pat <+: (t ++ b)) :
    replaceAll pat rep (a ++ b) = a ++ replaceAll pat rep b := by
  unfold replaceAll
  rw [replF_walk pat rep a b H _ (le_refl _)]
  congr 2
  simp [List.length_append]

theorem replaceAll_nil (pat rep : List Char) : replaceAll pat rep [] = [] := rfl

/-- A string without any occurrence of the pattern is left unchanged. -/
theorem replaceAll_of_no_occ (pat rep s : List Char) (h : ¬ pat <:+: s) :
    replaceAll pat rep s = s := by
  have := replaceAll_walk pat rep s []
    (fun t ht hne hp => h ((by simpa using hp : pat <+: t).isInfix.trans ht.isInfix))
  simpa [replaceAll_nil] using this

/-- An occurrence of the pattern sitting at the head is replaced. -/
theorem replaceAll_head (pat rep s : List Char) (hpat : pat ≠ []) :
    replaceAll pat rep (pat ++ s) = rep ++ replaceAll pat rep s := by
  match pat, hpat with
  | p :: pt, _ =>
    show replF (p :: pt) rep ((p :: pt) ++ s).length ((p :: pt) ++ s) = _
    have hlen : ((p :: pt) ++ s).length = (pt ++ s).length + 1 := by
      simp [List.length_append]
    rw [hlen, List.cons_append, replF_succ_cons]
    have hp : (p :: pt).isPrefixOf (p :: (pt ++ s)) = true := by
      rw [ List.isPrefixOf_iff_prefix]
      exact ⟨s, by simp⟩
    rw [if_pos (by simp [hp])]
    congr 1
    rw [show (p :: pt).length - 1 = pt.length by simp, List.drop_left]
    exact replF_fuel _ _ _ _ s (by simp [List.length_append]) (le_refl _)

/-! ## Combinatorics of occurrences used by the codec proofs -/

theorem suffix_append_cases {α : Type} {t a b : List α} (h : t <:+ a ++ b) :
    t <:+ b ∨ ∃ u, u <:+ a ∧ u ≠ [] ∧ t = u ++ b := by
  induction a with
  | nil => left; simpa using h
  | cons c a ih =>
    rw [List.cons_append, List.suffix_cons_iff] at h
    rcases h with h | h
    · right; exact ⟨c :: a, List.suffix_refl _, by simp, by simp [h]⟩
    · rcases ih h with h' | ⟨u, hu, hne, rfl⟩
      · left; exact h'
      · right; exact ⟨u, hu.trans (List.suffix_cons c a), hne, rfl⟩

theorem singleton_infix_iff {α : Type} {c : α} {l : List α} :
    [c] <:+: l ↔ c ∈ l := by
  constructor
  · rintro ⟨s, t, rfl⟩
    simp
  · intro hc
    obtain ⟨s, t, rfl⟩ := List.append_of_mem hc
    exact ⟨s, t, by simp⟩

/-- The marker `models--` does not occur in `ns ++ "--" ++ nm` when
`ns` and `nm` contain no `--`, and `ns` neither ends in `-` nor in
`models`. -/
theorem models_marker_no_occ (ns nm : List Char)
    (h1 : ¬ ['-', '-'] <:+: ns) (h2 : ¬ ['-', '-'] <:+: nm)
    (h3 : ¬ ['-'] <:+ ns) (h4 : ¬ ['m', 'o', 'd', 'e', 'l', 's'] <:+ ns) :
    ¬ ['m', 'o', 'd', 'e', 'l', 's', '-', '-'] <:+: (ns ++ ['-', '-'] ++ nm) := by
  intro hinf
  rw [List.infix_iff_prefix_suffix] at hinf
  obtain ⟨t, hMt, hts⟩ := hinf
  rw [List.append_assoc] at hts
  rcases suffix_append_cases hts with htb | ⟨u, hu, hune, rfl⟩
  · rcases suffix_append_cases htb with htn | ⟨v, hv, hvne, rfl⟩
    · exact h2 ((by decide : ['-', '-'] <:+: ['m', 'o', 'd', 'e', 'l', 's', '-', '-']).trans
        (hMt.isInfix.trans htn.isInfix))
    · have hv' : v = ['-'] ∨ v = ['-', '-'] := by
        rcases List.suffix_cons_iff.mp hv with h | h
        · right; exact h
        · rcases List.suffix_cons_iff.mp h with h' | h'
          · left; exact h'
          · exact absurd (List.suffix_nil.mp h') hvne
      rcases hv' with rfl | rfl
      · exact absurd ( List.cons_prefix_cons.mp hMt).1 (by decide)
      · exact absurd ( List.cons_prefix_cons.mp hMt).1 (by decide)
  · by_cases hlen : 8 ≤ u.length
    · have hMu : ['m', 'o', 'd', 'e', 'l', 's', '-', '-'] <+: u :=
        List.prefix_of_prefix_length_le hMt (List.prefix_append u _) (by simpa using hlen)
      exact h1 ((by decide : ['-', '-'] <:+: ['m', 'o', 'd', 'e', 'l', 's', '-', '-']).trans
        (hMu.isInfix.trans hu.isInfix))
    · push_neg at hlen
      have huM : u <+: ['m', 'o', 'd', 'e', 'l', 's', '-', '-'] :=
        List.prefix_of_prefix_length_le (List.prefix_append u _) hMt (by simp; omega)
      have hut : u = List.take u.length ['m', 'o', 'd', 'e', 'l', 's', '-', '-'] :=
        List.prefix_iff_eq_take.mp huM
      have hM'pre :
          List.drop u.length ['m', 'o', 'd', 'e', 'l', 's', '-', '-'] <+: (['-', '-'] ++ nm) := by
        have hsplit : ['m', 'o', 'd', 'e', 'l', 's', '-', '-'] =
            u ++ List.drop u.length ['m', 'o', 'd', 'e', 'l', 's', '-', '-'] := by
          conv_lhs => rw [← List.take_append_drop u.length ['m', 'o', 'd', 'e', 'l', 's', '-', '-']]
          rw [← hut]
        rw [hsplit] at hMt
        exact ( List.prefix_append_right_inj u).mp hMt
      obtain ⟨k, hk⟩ : ∃ k, u.length = k := ⟨_, rfl⟩
      rw [hk] at hut hM'pre
      have hk8 : k < 8 := hk ▸ hlen
      interval_cases k
      · exact hune hut
      · rcases hM'pre with ⟨w, hw⟩
        have hw' : 'o' :: (['d', 'e', 'l', 's', '-', '-'] ++ w) = '-' :: ('-' :: nm) := hw
        injection hw' with hA _
        exact absurd hA (by decide)
      · rcases hM'pre with ⟨w, hw⟩
        have hw' : 'd' :: (['e', 'l', 's', '-', '-'] ++ w) = '-' :: ('-' :: nm) := hw
        injection hw' with hA _
        exact absurd hA (by decide)
      · rcases hM'pre with ⟨w, hw⟩
        have hw' : 'e' :: (['l', 's', '-', '-'] ++ w) = '-' :: ('-' :: nm) := hw
        injection hw' with hA _
        exact absurd hA (by decide)
      · rcases hM'pre with ⟨w, hw⟩
        have hw' : 'l' :: (['s', '-', '-'] ++ w) = '-' :: ('-' :: nm) := hw
        injection hw' with hA _
        exact absurd hA (by decide)
      · rcases hM'pre with ⟨w, hw⟩
        have hw' : 's' :: (['-', '-'] ++ w) = '-' :: ('-' :: nm) := hw
        injection hw' with hA _
        exact absurd hA (by decide)
      · rw [hut] at hu
        exact h4 hu
      · have hsuf : (['-'] : List Char) <:+ u := by rw [hut]; decide
        exact h3 (hsuf.trans hu)

/-- List-level roundtrip of the codec, in the amended generality. -/
theorem codec_roundtrip_list (ns nm : List Char)
    (h1 : ¬ ['-', '-'] <:+: ns) (h2 : ¬ ['-', '-'] <:+: nm)
    (h3 : ¬ ['-'] <:+ ns) (h4 : ¬ ['m', 'o', 'd', 'e', 'l', 's'] <:+ ns)
    (h5 : '/' ∉ ns) (h6 : '/' ∉ nm) :
    replaceAll ['-', '-'] ['/']
      (replaceAll ['m', 'o', 'd', 'e', 'l', 's', '-', '-'] []
        (['m', 'o', 'd', 'e', 'l', 's', '-', '-'] ++
          replaceAll ['/'] ['-', '-'] (ns ++ '/' :: nm)))
    = ns ++ '/' :: nm := by
  have hslash : replaceAll ['/'] ['-', '-'] (ns ++ '/' :: nm) = ns ++ ['-', '-'] ++ nm := by
    rw [show ns ++ '/' :: nm = ns ++ (['/'] ++ nm) from by simp]
    rw [replaceAll_walk _ _ ns _ ?Hw]
    case Hw =>
      intro t ht hne hp
      match t, hne with
      | c :: t', _ =>
        have hc : '/' = c := ( List.cons_prefix_cons.mp hp).1
        exact h5 (ht.subset (hc ▸ List.mem_cons_self c t'))
    rw [replaceAll_head _ _ _ (by decide)]
    rw [replaceAll_of_no_occ _ _ _ (fun hocc => h6 (singleton_infix_iff.mp hocc))]
    simp
  rw [hslash, List.append_assoc]
  rw [replaceAll_head ['m', 'o', 'd', 'e', 'l', 's', '-', '-'] []
    (ns ++ (['-', '-'] ++ nm)) (by decide), List.nil_append]
  rw [replaceAll_of_no_occ ['m', 'o', 'd', 'e', 'l', 's', '-', '-'] []
    (ns ++ (['-', '-'] ++ nm))
    (by rw [← List.append_assoc]; exact models_marker_no_occ ns nm h1 h2 h3 h4)]
  rw [replaceAll_walk ['-', '-'] ['/'] ns (['-', '-'] ++ nm) ?Hw2]
  case Hw2 =>
    intro t ht hne hp
    match t, hne with
    | [c], _ =>
      have hc : '-' = c := ( List.cons_prefix_cons.mp hp).1
      exact h3 (hc ▸ ht)
    | c :: c' :: t', _ =>
      have hcc := List.cons_prefix_cons.mp hp
      have hcc' := List.cons_prefix_cons.mp hcc.2
      refine h1 ((?_ : ['-', '-'] <+: c :: c' :: t').isInfix.trans ht.isInfix)
      rw [← hcc.1, ← hcc'.1]
      exact ⟨t', rfl⟩
  rw [replaceAll_head ['-', '-'] ['/'] nm (by decide)]
  rw [replaceAll_of_no_occ ['-', '-'] ['/'] nm h2]
  simp

/-- C1 (amended): the codec roundtrip holds for nonempty pairs without
`--` and without `/`, where additionally the namespace neither ends in
`-` nor in `models`. -/
theorem c1_model_roundtrip_amended (ns nm : String)
    (_hns : ns ≠ "") (_hnm : nm ≠ "")
    (h1 : ¬ ['-', '-'] <:+: ns.data) (h2 : ¬ ['-', '-'] <:+: nm.data)
    (h5 : '/' ∉ ns.data) (h6 : '/' ∉ nm.data)
    (h3 : ¬ ['-'] <:+ ns.data) (h4 : ¬ ['m', 'o', 'd', 'e', 'l', 's'] <:+ ns.data) :
    decodeModel (encodeModel ns nm) = ns ++ "/" ++ nm := by
  have h0 : (ns ++ "/" ++ nm).data = ns.data ++ '/' :: nm.data := by
    rw [String.data_append, String.data_append,
      show ("/" : String).data = ['/'] from rfl]
    simp
  have henc : (encodeModel ns nm).data
      = ['m', 'o', 'd', 'e', 'l', 's', '-', '-'] ++
          replaceAll ['/'] ['-', '-'] (ns.data ++ '/' :: nm.data) := by
    unfold encodeModel strReplace
    simp only [String.data_append]
    simp [List.append_assoc]
  apply String.ext
  rw [h0]
  show replaceAll ['-', '-'] ['/']
      (replaceAll ['m', 'o', 'd', 'e', 'l', 's', '-', '-'] [] ((encodeModel ns nm).data))
    = ns.data ++ '/' :: nm.data
  rw [henc]
  exact codec_roundtrip_list ns.data nm.data h1 h2 h3 h4 h5 h6

/-- C1 counterexample: the roundtrip fails as stated.  The code's
decode removes every occurrence of `models--` (not only the prefix)
and substitutes the separators left to right, so the pairs
`("mymodels", "bert")`, `("a-", "b")` and `("models/x", "nm")` — all
nonempty and free of `--` — do not roundtrip. -/
theorem c1_model_roundtrip_cex :
    ("mymodels" ≠ "" ∧ "bert" ≠ "" ∧
      ¬ ['-', '-'] <:+: "mymodels".data ∧ ¬ ['-', '-'] <:+: "bert".data ∧
      decodeModel (encodeModel "mymodels" "bert") ≠ "mymodels" ++ "/" ++ "bert") ∧
    ("a-" ≠ "" ∧ "b" ≠ "" ∧
      ¬ ['-', '-'] <:+: "a-".data ∧ ¬ ['-', '-'] <:+: "b".data ∧
      decodeModel (encodeModel "a-" "b") ≠ "a-" ++ "/" ++ "b") ∧
    ("models/x" ≠ "" ∧ "nm" ≠ "" ∧
      ¬ ['-', '-'] <:+: "models/x".data ∧ ¬ ['-', '-'] <:+: "nm".data ∧
      decodeModel (encodeModel "models/x" "nm") ≠ "models/x" ++ "/" ++ "nm") := by
  decide

/-- Witness for the amended C1 roundtrip at a concrete pair. -/
theorem c1_model_roundtrip_amended_witness :
    decodeModel (encodeModel "org" "bert") = "org" ++ "/" ++ "bert" :=
  c1_model_roundtrip_amended "org" "bert" (by decide) (by decide) (by decide)
    (by decide) (by decide) (by decide) (by decide) (by decide)

/-! ## Filesystem model for the scanner and `clean`

Paths are component lists relative to the cache root (`HF_HOME`); the
four standard stores are the components `"hub"`, `"datasets"`,
`"assets"` and `"xet"`.  A state lists its regular files and its
directories explicitly. -/

abbrev FsPath := List String

structure FS where
  files : List FsPath
  dirs : List FsPath
deriving DecidableEq

/-- Name (last component) of a path. -/
def nameOf (p : FsPath) : String := p.getLastD ""

/-- Match of the `*.lock` glob pattern against an entry's name. -/
def isLockP (p : FsPath) : Bool := sEndsWith (nameOf p) ".lock"

/-- Match of the `*.incomplete` glob pattern against an entry's name. -/
def isIncompleteP (p : FsPath) : Bool := sEndsWith (nameOf p) ".incomplete"

/-- The direct child of `hub/` that an entry witnesses, if any. -/
def hubChildOf (p : FsPath) : Option String :=
  match p with
  | root :: c :: _ => if root = "hub" then some c else none
  | _ => none

/-- Entries strictly below the model-snapshot store `hub/`. -/
def underHub (p : FsPath) : Bool :=
  (hubChildOf p).isSome

/-- Match of the incomplete-transfer pass (`hub_cache.rglob("*.incomplete")`). -/
def isStaleIncomplete (p : FsPath) : Bool := underHub p && isIncompleteP p

/-- Names of the direct children of `hub/`, each listed once. -/
def hubChildren (fs : FS) : List String :=
  ((fs.files ++ fs.dirs).filterMap hubChildOf).dedup

/-- The misplaced-dataset glob `glob(str(hub_cache / "datasets--*"))`:
direct children of `hub/` whose name starts with the literal
`datasets--`. -/
def misplacedChildren (fs : FS) : List String :=
  (hubChildren fs).filter (fun c => sStartsWith c "datasets--")

/-- One stale artifact, tagged by the pass that found it. -/
inductive StaleArtifact where
  | lock : FsPath → StaleArtifact
  | incomplete : FsPath → StaleArtifact
  | misplaced : FsPath → StaleArtifact
deriving DecidableEq

/-- The read-only three-pass scanner: lock files anywhere under the
root, incomplete transfers under `hub/`, misplaced `datasets--*`
entries directly under `hub/`. -/
def scan (fs : FS) : List StaleArtifact :=
  (fs.files.filter isLockP).map StaleArtifact.lock ++
  (fs.files.filter isStaleIncomplete).map StaleArtifact.incomplete ++
  (misplacedChildren fs).map (fun c => StaleArtifact.misplaced ["hub", c])

/-- `Path.unlink` of every file matched by `pred`. -/
def removeFiles (pred : FsPath → Bool) (fs : FS) : FS :=
  { fs with files := fs.files.filter (fun f => !(pred f)) }

/-- `shutil.rmtree(hub_cache / c)`: removes the entry and everything
below it. -/
def rmtree1 (c : String) (fs : FS) : FS :=
  { files := fs.files.filter (fun e => !(["hub", c].isPrefixOf e)),
    dirs := fs.dirs.filter (fun e => !(["hub", c].isPrefixOf e)) }

def rmtreeAll (cs : List String) (fs : FS) : FS :=
  cs.foldl (fun a c => rmtree1 c a) fs

/-- `HFCacheManager.clean`: the three passes of the code, with the
deletion of each pass interleaved before the glob of the next pass
exactly as in the source (locks are unlinked before the incomplete
glob runs, and both before the misplaced glob). -/
def clean (dryRun : Bool) (fs : FS) : Nat × FS :=
  let locks := fs.files.filter isLockP
  let fs1 := if dryRun then fs else removeFiles isLockP fs
  let incs := fs1.files.filter isStaleIncomplete
  let fs2 := if dryRun then fs1 else removeFiles isStaleIncomplete fs1
  let mis := misplacedChildren fs2
  let fs3 := if dryRun then fs2 else rmtreeAll mis fs2
  (locks.length + incs.length + mis.length, fs3)

/-- C7: a dry-run clean never mutates the filesystem, so a scan after
it returns the same stale artifacts as a scan before it. -/
theorem c7_dry_run_clean_no_mutation (fs : FS) :
    (clean true fs).2 = fs ∧ scan (clean true fs).2 = scan fs :=
  ⟨rfl, rfl⟩

/-! ## Lemmas for the clean/scan theorems -/

theorem suffix_of_suffix_length_le {α : Type} {u v s : List α}
    (hu : u <:+ s) (hv : v <:+ s) (h : u.length ≤ v.length) : u <:+ v := by
  rw [← List.reverse_prefix] at hu hv ⊢
  exact List.prefix_of_prefix_length_le hu hv (by simpa using h)

/-- A name cannot match both the `*.lock` and the `*.incomplete` glob. -/
theorem lock_incomplete_clash (s : String)
    (hl : sEndsWith s ".lock" = true) (hi : sEndsWith s ".incomplete" = true) :
    False := by
  unfold sEndsWith at hl hi
  rw [List.isSuffixOf_iff_suffix] at hl hi
  exact absurd (suffix_of_suffix_length_le hl hi (by decide)) (by decide)

theorem isLockP_not_incomplete {p : FsPath} (h : isLockP p = true) :
    isIncompleteP p = false := by
  cases hi : isIncompleteP p
  · rfl
  · exact (lock_incomplete_clash (nameOf p) h hi).elim

theorem mem_rmtree1_files {c : String} {fs : FS} {e : FsPath} :
    e ∈ (rmtree1 c fs).files ↔ e ∈ fs.files ∧ ¬ ["hub", c] <+: e := by
  simp [rmtree1, List.mem_filter, ← List.isPrefixOf_iff_prefix]

theorem mem_rmtree1_dirs {c : String} {fs : FS} {e : FsPath} :
    e ∈ (rmtree1 c fs).dirs ↔ e ∈ fs.dirs ∧ ¬ ["hub", c] <+: e := by
  simp [rmtree1, List.mem_filter, ← List.isPrefixOf_iff_prefix]

theorem mem_rmtreeAll_files {cs : List String} :
    ∀ {fs : FS} {e : FsPath},
      e ∈ (rmtreeAll cs fs).files ↔
        e ∈ fs.files ∧ ∀ c ∈ cs, ¬ ["hub", c] <+: e := by
  induction cs with
  | nil => intro fs e; simp [rmtreeAll]
  | cons c cs ih =>
    intro fs e
    rw [show rmtreeAll (c :: cs) fs = rmtreeAll cs (rmtree1 c fs) from rfl, ih,
      mem_rmtree1_files]
    simp only [List.forall_mem_cons]
    tauto

theorem mem_rmtreeAll_dirs {cs : List String} :
    ∀ {fs : FS} {e : FsPath},
      e ∈ (rmtreeAll cs fs).dirs ↔
        e ∈ fs.dirs ∧ ∀ c ∈ cs, ¬ ["hub", c] <+: e := by
  induction cs with
  | nil => intro fs e; simp [rmtreeAll]
  | cons c cs ih =>
    intro fs e
    rw [show rmtreeAll (c :: cs) fs = rmtreeAll cs (rmtree1 c fs) from rfl, ih,
      mem_rmtree1_dirs]
    simp only [List.forall_mem_cons]
    tauto

theorem mem_hubChildren {fs : FS} {c : String} :
    c ∈ hubChildren fs ↔ ∃ e ∈ fs.files ++ fs.dirs, hubChildOf e = some c := by
  simp only [hubChildren, List.mem_dedup, List.mem_filterMap, List.mem_append]

theorem mem_misplacedChildren {fs : FS} {c : String} :
    c ∈ misplacedChildren fs ↔
      (∃ e ∈ fs.files ++ fs.dirs, hubChildOf e = some c) ∧
        sStartsWith c "datasets--" = true := by
  simp [misplacedChildren, List.mem_filter, mem_hubChildren]

theorem hubChildOf_some {e : FsPath} {c : String} (h : hubChildOf e = some c) :
    ∃ rest, e = "hub" :: c :: rest := by
  match e with
  | [] => simp [hubChildOf] at h
  | [x] => simp [hubChildOf] at h
  | x :: y :: rest =>
    rw [show hubChildOf (x :: y :: rest) = if x = "hub" then some y else none from rfl] at h
    by_cases hx : x = "hub"
    · rw [if_pos hx] at h
      exact ⟨rest, by rw [hx, Option.some_inj.mp h]⟩
    · rw [if_neg hx] at h
      exact absurd h (by simp)

theorem hubChildOf_cons (c : String) (rest : List String) :
    hubChildOf ("hub" :: c :: rest) = some c := by
  simp [hubChildOf]

theorem length_filter_dedup_congr {α : Type} [DecidableEq α] {l l' : List α}
    {p : α → Bool} (h : ∀ a, p a = true → (a ∈ l ↔ a ∈ l')) :
    (l.dedup.filter p).length = (l'.dedup.filter p).length := by
  apply List.Perm.length_eq
  rw [List.perm_ext_iff_of_nodup (List.Nodup.filter p (List.nodup_dedup l))
    (List.Nodup.filter p (List.nodup_dedup l'))]
  intro a
  simp only [List.mem_filter, List.mem_dedup]
  constructor
  · rintro ⟨ha, hp⟩; exact ⟨(h a hp).mp ha, hp⟩
  · rintro ⟨ha, hp⟩; exact ⟨(h a hp).mpr ha, hp⟩

/-- The first two (file-deleting) passes do not change the set of
misplaced `datasets--*` children, given a well-formed state. -/
theorem mis_len_after_removals (fs : FS)
    (h3 : ∀ e ∈ fs.files, e.head? = some "hub" → e.length = 2 →
      sStartsWith (nameOf e) "datasets--" = false)
    (h4 : ∀ e ∈ fs.files, ∀ n < e.length, 0 < n → e.take n ∈ fs.dirs) :
    (misplacedChildren (removeFiles isStaleIncomplete (removeFiles isLockP fs))).length
      = (misplacedChildren fs).length := by
  unfold misplacedChildren hubChildren
  apply length_filter_dedup_congr
  intro c hp
  simp only [List.mem_filterMap, List.mem_append]
  constructor
  · rintro ⟨e, he, hce⟩
    refine ⟨e, ?_, hce⟩
    rcases he with he | he
    · left
      simp only [removeFiles, List.mem_filter] at he
      exact he.1.1
    · right; exact he
  · rintro ⟨e, he, hce⟩
    obtain ⟨rest, rfl⟩ := hubChildOf_some hce
    rcases he with he | he
    · cases rest with
      | nil =>
        have hh := h3 _ he rfl rfl
        rw [show nameOf ["hub", c] = c from rfl] at hh
        exact absurd hp (by simp [hh])
      | cons r rs =>
        refine ⟨["hub", c], Or.inr ?_, hubChildOf_cons c []⟩
        have := h4 _ he 2 (by simp) (by omega)
        simpa using this
    · exact ⟨_, Or.inr he, hce⟩

/-- First half of C2: on a well-formed state, the count returned by a
non-dry-run clean equals the number of stale artifacts the scanner
reports. -/
theorem clean_count_eq_scan (fs : FS)
    (h3 : ∀ e ∈ fs.files, e.head? = some "hub" → e.length = 2 →
      sStartsWith (nameOf e) "datasets--" = false)
    (h4 : ∀ e ∈ fs.files, ∀ n < e.length, 0 < n → e.take n ∈ fs.dirs) :
    (clean false fs).1 = (scan fs).length := by
  have hinc : ((removeFiles isLockP fs).files.filter isStaleIncomplete)
      = fs.files.filter isStaleIncomplete := by
    unfold removeFiles
    rw [List.filter_filter]
    apply List.filter_congr
    intro x _
    cases hl : isLockP x
    · simp
    · have hi : isIncompleteP x = false := isLockP_not_incomplete hl
      simp [isStaleIncomplete, hi]
  show (fs.files.filter isLockP).length
      + ((removeFiles isLockP fs).files.filter isStaleIncomplete).length
      + (misplacedChildren (removeFiles isStaleIncomplete (removeFiles isLockP fs))).length
      = (scan fs).length
  rw [hinc, mis_len_after_removals fs h3 h4]
  simp [scan, List.length_append, List.length_map]
  omega

/-- Second half of C2: an immediately repeated non-dry-run clean finds
nothing and returns 0 (this holds for every state). -/
theorem clean_clean_zero (fs : FS) :
    (clean false (clean false fs).2).1 = 0 := by
  have hA : ∀ e ∈ ((clean false fs).2).files,
      isLockP e = false ∧ isStaleIncomplete e = false := by
    intro e he
    have he' : e ∈ (rmtreeAll
        (misplacedChildren (removeFiles isStaleIncomplete (removeFiles isLockP fs)))
        (removeFiles isStaleIncomplete (removeFiles isLockP fs))).files := he
    have h2 := (mem_rmtreeAll_files.mp he').1
    simp only [removeFiles, List.mem_filter] at h2
    exact ⟨by simpa using h2.1.2, by simpa using h2.2⟩
  have h1 : (((clean false fs).2).files.filter isLockP) = [] := by
    rw [List.filter_eq_nil_iff]
    intro a ha
    simp [(hA a ha).1]
  have h2 : ((removeFiles isLockP ((clean false fs).2)).files.filter isStaleIncomplete)
      = [] := by
    rw [List.filter_eq_nil_iff]
    intro a ha
    have ha' : a ∈ ((clean false fs).2).files := by
      simp only [removeFiles, List.mem_filter] at ha
      exact ha.1
    simp [(hA _ ha').2]
  have h3 : misplacedChildren
      (removeFiles isStaleIncomplete (removeFiles isLockP ((clean false fs).2))) = [] := by
    rw [List.eq_nil_iff_forall_not_mem]
    intro c hc
    rw [mem_misplacedChildren] at hc
    obtain ⟨⟨e, he, hce⟩, hpre⟩ := hc
    obtain ⟨rest, rfl⟩ := hubChildOf_some hce
    have hpf : ["hub", c] <+: "hub" :: c :: rest := ⟨rest, rfl⟩
    rw [List.mem_append] at he
    have he3 : ("hub" :: c :: rest) ∈ ((clean false fs).2).files ∨
        ("hub" :: c :: rest) ∈ ((clean false fs).2).dirs := by
      rcases he with he | he
      · left
        simp only [removeFiles, List.mem_filter] at he
        exact he.1.1
      · right
        exact he
    rcases he3 with he3 | he3
    · have hm := mem_rmtreeAll_files.mp he3
      refine hm.2 c ?_ hpf
      rw [mem_misplacedChildren]
      exact ⟨⟨_, List.mem_append.mpr (Or.inl hm.1), hubChildOf_cons c rest⟩, hpre⟩
    · have hm := mem_rmtreeAll_dirs.mp he3
      refine hm.2 c ?_ hpf
      rw [mem_misplacedChildren]
      exact ⟨⟨_, List.mem_append.mpr (Or.inr hm.1), hubChildOf_cons c rest⟩, hpre⟩
  show (((clean false fs).2).files.filter isLockP).length
    + ((removeFiles isLockP ((clean false fs).2)).files.filter isStaleIncomplete).length
    + (misplacedChildren
        (removeFiles isStaleIncomplete (removeFiles isLockP ((clean false fs).2)))).length
    = 0
  rw [h1, h2, h3]
  rfl

/-- C2 counterexample: a file named `datasets--x.lock` directly under
`hub/` is reported by the scanner as two stale artifacts (a lock file
and a misplaced `datasets--*` entry), but a non-dry-run clean unlinks
it in the lock pass, so the later misplaced glob no longer sees it and
the returned count is 1, not 2. -/
theorem c2_clean_idempotent_cex :
    (clean false ⟨[["hub", "datasets--x.lock"]], [["hub"]]⟩).1 = 1 ∧
    (scan ⟨[["hub", "datasets--x.lock"]], [["hub"]]⟩).length = 2 := by
  decide

/-- C2 (amended): on a well-formed cache state — duplicate-free file
listing, lock/incomplete names carried by regular files only, parent
directories present, and no regular file sitting directly under `hub/`
with a `datasets--*` name — the first non-dry-run clean returns
exactly the number of stale artifacts the scanner reports, and an
immediately repeated clean returns 0. -/
theorem c2_clean_idempotent_amended (fs : FS)
    (_h1 : fs.files.Nodup)
    (_h2 : ∀ d ∈ fs.dirs, isLockP d = false ∧ isIncompleteP d = false)
    (h3 : ∀ e ∈ fs.files, e.head? = some "hub" → e.length = 2 →
      sStartsWith (nameOf e) "datasets--" = false)
    (h4 : ∀ e ∈ fs.files, ∀ n < e.length, 0 < n → e.take n ∈ fs.dirs) :
    (clean false fs).1 = (scan fs).length ∧
    (clean false (clean false fs).2).1 = 0 :=
  ⟨clean_count_eq_scan fs h3 h4, clean_clean_zero fs⟩

/-- Witness for the amended C2 at a concrete state holding one stale
artifact of each kind. -/
theorem c2_clean_idempotent_amended_witness :
    (clean false ⟨[["a.lock"], ["hub", "m", "x.incomplete"], ["hub", "datasets--d", "f"]],
        [["hub"], ["hub", "m"], ["hub", "datasets--d"]]⟩).1
      = (scan ⟨[["a.lock"], ["hub", "m", "x.incomplete"], ["hub", "datasets--d", "f"]],
          [["hub"], ["hub", "m"], ["hub", "datasets--d"]]⟩).length ∧
    (clean false (clean false ⟨[["a.lock"], ["hub", "m", "x.incomplete"],
        ["hub", "datasets--d", "f"]],
        [["hub"], ["hub", "m"], ["hub", "datasets--d"]]⟩).2).1 = 0 :=
  c2_clean_idempotent_amended
    ⟨[["a.lock"], ["hub", "m", "x.incomplete"], ["hub", "datasets--d", "f"]],
      [["hub"], ["hub", "m"], ["hub", "datasets--d"]]⟩
    (by decide) (by decide) (by decide) (by decide)

/-- C4 counterexample: an entry named by the dataset-encoding
convention (`org___name`, i.e. `encodeDataset "org/name"`) placed
directly under `hub/` yields no stale artifact at all — the code's
misplaced glob is `datasets--*`, not the `___` convention — and a
non-dry-run clean removes nothing. -/
theorem c4_misplaced_cex :
    encodeDataset "org/name" = "org___name" ∧
    scan ⟨[], [["hub"], ["hub", "org___name"]]⟩ = [] ∧
    clean false ⟨[], [["hub"], ["hub", "org___name"]]⟩
      = (0, ⟨[], [["hub"], ["hub", "org___name"]]⟩) := by
  decide

/-- C4 (amended): a directory placed directly under `hub/` whose name
starts with the literal `datasets--` is reported as exactly one
misplaced stale artifact, and a non-dry-run clean removes it together
with everything below it. -/
theorem c4_misplaced_amended (fs : FS) (c : String)
    (hmem : ["hub", c] ∈ fs.dirs) (hpre : sStartsWith c "datasets--" = true) :
    (scan fs).count (StaleArtifact.misplaced ["hub", c]) = 1 ∧
    (∀ e ∈ ((clean false fs).2).files, ¬ ["hub", c] <+: e) ∧
    (∀ e ∈ ((clean false fs).2).dirs, ¬ ["hub", c] <+: e) := by
  have hc : c ∈ misplacedChildren fs := by
    rw [mem_misplacedChildren]
    exact ⟨⟨["hub", c], List.mem_append.mpr (Or.inr hmem), hubChildOf_cons c []⟩, hpre⟩
  have hc2 : c ∈ misplacedChildren
      (removeFiles isStaleIncomplete (removeFiles isLockP fs)) := by
    rw [mem_misplacedChildren]
    exact ⟨⟨["hub", c], List.mem_append.mpr (Or.inr hmem), hubChildOf_cons c []⟩, hpre⟩
  refine ⟨?_, ?_, ?_⟩
  · unfold scan
    rw [List.count_append, List.count_append]
    have hz1 : List.count (StaleArtifact.misplaced ["hub", c])
        ((fs.files.filter isLockP).map StaleArtifact.lock) = 0 := by
      rw [List.count_eq_zero]
      simp [List.mem_map]
    have hz2 : List.count (StaleArtifact.misplaced ["hub", c])
        ((fs.files.filter isStaleIncomplete).map StaleArtifact.incomplete) = 0 := by
      rw [List.count_eq_zero]
      simp [List.mem_map]
    have hinj : Function.Injective (fun c : String => StaleArtifact.misplaced ["hub", c]) := by
      intro a b hab
      have := StaleArtifact.misplaced.inj hab
      simpa using this
    have hone : List.count (StaleArtifact.misplaced ["hub", c])
        ((misplacedChildren fs).map (fun c => StaleArtifact.misplaced ["hub", c])) = 1 := by
      apply List.count_eq_one_of_mem
      · exact (List.Nodup.filter _ (List.nodup_dedup _)).map hinj
      · exact List.mem_map.mpr ⟨c, hc, rfl⟩
    rw [hz1, hz2, hone]
  · intro e he
    have he' : e ∈ (rmtreeAll
        (misplacedChildren (removeFiles isStaleIncomplete (removeFiles isLockP fs)))
        (removeFiles isStaleIncomplete (removeFiles isLockP fs))).files := he
    exact (mem_rmtreeAll_files.mp he').2 c hc2
  · intro e he
    have he' : e ∈ (rmtreeAll
        (misplacedChildren (removeFiles isStaleIncomplete (removeFiles isLockP fs)))
        (removeFiles isStaleIncomplete (removeFiles isLockP fs))).dirs := he
    exact (mem_rmtreeAll_dirs.mp he').2 c hc2

/-- Witness for the amended C4 at a concrete state. -/
theorem c4_misplaced_amended_witness :
    (scan ⟨[["hub", "datasets--foo", "part"]], [["hub"], ["hub", "datasets--foo"]]⟩).count
        (StaleArtifact.misplaced ["hub", "datasets--foo"]) = 1 ∧
    (∀ e ∈ ((clean false ⟨[["hub", "datasets--foo", "part"]],
        [["hub"], ["hub", "datasets--foo"]]⟩).2).files,
      ¬ ["hub", "datasets--foo"] <+: e) ∧
    (∀ e ∈ ((clean false ⟨[["hub", "datasets--foo", "part"]],
        [["hub"], ["hub", "datasets--foo"]]⟩).2).dirs,
      ¬ ["hub", "datasets--foo"] <+: e) :=
  c4_misplaced_amended ⟨[["hub", "datasets--foo", "part"]],
    [["hub"], ["hub", "datasets--foo"]]⟩ "datasets--foo" (by decide) (by decide)

/-! ## Cache-root resolution (`HFCacheManager.__init__`) -/

/-- Python truthiness of an optional string (`if hf_home:`,
`if os.environ.get("HF_HOME"):`): present and nonempty. -/
def truthy : Option String → Bool
  | some s => !s.isEmpty
  | none => false

/-- `os.environ.get(name, default)`: the stored value when the
variable is present (even when empty), else the default. -/
def envGetD (v : Option String) (d : String) : String := v.getD d

/-- The templated default root
`/leonardo_work/{account}/users/{user}/oellm-evals/hf_data`. -/
def defaultHfRoot (account user : String) : String :=
  "/leonardo_work/" ++ account ++ "/users/" ++ user ++ "/oellm-evals/hf_data"

/-- Cache-root resolution: the explicit constructor argument, then the
`HF_HOME` environment variable, then the templated default built from
`USER` (defaulting to `"unknown"` when absent) and `ACCOUNT` (else
`SLURM_ACCOUNT`, else empty); raises `ValueError` exactly when the
account resolves to the empty string. -/
def resolveHfHome (arg envHF envUSER envACCOUNT envSLURM : Option String) :
    Except String String :=
  if truthy arg then Except.ok (arg.getD "")
  else if truthy envHF then Except.ok (envHF.getD "")
  else
    let user := envGetD envUSER "unknown"
    let account := envGetD envACCOUNT (envGetD envSLURM "")
    if account.isEmpty then
      Except.error "Cannot determine HF_HOME"
    else
      Except.ok (defaultHfRoot account user)

/-- C6 counterexample: with no explicit argument, no `HF_HOME`
override and no user identity, but an account set, resolution
succeeds using the fallback identity `"unknown"` — the claim instead
requires a `ConfigurationError` whenever the identity is unavailable. -/
theorem c6_resolution_cex :
    resolveHfHome none none none (some "proj") none
      = Except.ok "/leonardo_work/proj/users/unknown/oellm-evals/hf_data" := by
  rfl

/-- C6 (amended): resolution order is explicit argument, then the
environment override, then the templated default; it fails iff neither
the argument nor the override is a nonempty string and the account
(`ACCOUNT`, else `SLURM_ACCOUNT`) resolves empty — a missing user
identity never causes a failure, it falls back to `"unknown"`. -/
theorem c6_resolution_amended (arg envHF envUSER envACCOUNT envSLURM : Option String) :
    (truthy arg = true →
      resolveHfHome arg envHF envUSER envACCOUNT envSLURM = Except.ok (arg.getD "")) ∧
    (truthy arg = false → truthy envHF = true →
      resolveHfHome arg envHF envUSER envACCOUNT envSLURM = Except.ok (envHF.getD "")) ∧
    (truthy arg = false → truthy envHF = false →
      (envGetD envACCOUNT (envGetD envSLURM "")).isEmpty = false →
      resolveHfHome arg envHF envUSER envACCOUNT envSLURM
        = Except.ok (defaultHfRoot (envGetD envACCOUNT (envGetD envSLURM ""))
            (envGetD envUSER "unknown"))) ∧
    (truthy arg = false → truthy envHF = false →
      (envGetD envACCOUNT (envGetD envSLURM "")).isEmpty = true →
      ∃ msg, resolveHfHome arg envHF envUSER envACCOUNT envSLURM = Except.error msg) := by
  refine ⟨?_, ?_, ?_, ?_⟩
  · intro h
    simp [resolveHfHome, h]
  · intro h1 h2
    simp [resolveHfHome, h1, h2]
  · intro h1 h2 h3
    simp [resolveHfHome, h1, h2, h3]
  · intro h1 h2 h3
    exact ⟨"Cannot determine HF_HOME", by simp [resolveHfHome, h1, h2, h3]⟩

/-- Witness for the amended C6: an explicit argument wins, and with
nothing available resolution fails. -/
theorem c6_resolution_amended_witness :
    resolveHfHome (some "/x") none none none none = Except.ok ((some "/x").getD "") ∧
    (∃ msg, resolveHfHome none none none none none = Except.error msg) :=
  ⟨(c6_resolution_amended (some "/x") none none none none).1 (by decide),
   (c6_resolution_amended none none none none none).2.2.2 (by decide) (by decide) (by decide)⟩

/-! ## `setup_environment` over an abstract process environment -/

/-- The manager's resolved root; the four store paths are derived with
`/` exactly as `Path` concatenation does. -/
structure HM where
  hfHome : String
deriving DecidableEq

def hubCachePath (m : HM) : String := m.hfHome ++ "/hub"
def datasetsCachePath (m : HM) : String := m.hfHome ++ "/datasets"
def assetsCachePath (m : HM) : String := m.hfHome ++ "/assets"
def xetCachePath (m : HM) : String := m.hfHome ++ "/xet"

/-- The `env` dict built by `setup_environment` before the offline
update: cache paths and progress-bar switches. -/
def baseEnvList (m : HM) : List (String × String) :=
  [("HF_HOME", m.hfHome),
   ("HF_HUB_CACHE", hubCachePath m),
   ("HF_XET_CACHE", xetCachePath m),
   ("HF_ASSETS_CACHE", assetsCachePath m),
   ("HUGGINGFACE_HUB_CACHE", hubCachePath m),
   ("HUGGINGFACE_ASSETS_CACHE", assetsCachePath m),
   ("HF_DATASETS_CACHE", datasetsCachePath m),
   ("TRANSFORMERS_CACHE", hubCachePath m),
   ("HF_HUB_DISABLE_PROGRESS_BARS", "1"),
   ("HF_DATASETS_DISABLE_PROGRESS_BARS", "1")]

/-- The entries added to the dict only when `offline=True`. -/
def offlineEnvList : List (String × String) :=
  [("HF_DATASETS_OFFLINE", "1"),
   ("HF_HUB_OFFLINE", "1"),
   ("TRANSFORMERS_OFFLINE", "1")]

/-- First-match association lookup. -/
def lookupKV (l : List (String × String)) (k : String) : Option String :=
  match l with
  | [] => none
  | (k', v) :: rest => if k = k' then some v else lookupKV rest k

/-- `setup_environment(offline)`: `os.environ.update(env)` — every key
of the dict is (over)written, every other variable is left alone. -/
def setupEnvironment (m : HM) (offline : Bool) (e : String → Option String) :
    String → Option String :=
  fun k =>
    match lookupKV (baseEnvList m ++ if offline then offlineEnvList else []) k with
    | some v => some v
    | none => e k

/-- C9: after `setup_environment(offline=True)`, a later
`setup_environment(offline=False)` leaves the three offline-mode
variables set to `"1"` — the online call writes only the cache-path
and progress-bar variables and never unsets the offline flags. -/
theorem c9_offline_sticky (m : HM) (e : String → Option String) :
    (setupEnvironment m false (setupEnvironment m true e) "HF_DATASETS_OFFLINE" = some "1" ∧
     setupEnvironment m false (setupEnvironment m true e) "HF_HUB_OFFLINE" = some "1" ∧
     setupEnvironment m false (setupEnvironment m true e) "TRANSFORMERS_OFFLINE" = some "1") ∧
    (∀ k, lookupKV (baseEnvList m) k = none →
      setupEnvironment m false (setupEnvironment m true e) k
        = setupEnvironment m true e k) := by
  constructor
  · refine ⟨?_, ?_, ?_⟩ <;>
      simp [setupEnvironment, baseEnvList, offlineEnvList, lookupKV]
  · intro k hk
    unfold setupEnvironment
    rw [if_neg (by decide), List.append_nil, hk]

/-- Witness for C9 at a concrete root, environment and frame variable. -/
theorem c9_offline_sticky_witness :
    setupEnvironment ⟨"/hf"⟩ false (setupEnvironment ⟨"/hf"⟩ true (fun _ => none))
        "HF_HUB_OFFLINE" = some "1" ∧
    setupEnvironment ⟨"/hf"⟩ false (setupEnvironment ⟨"/hf"⟩ true (fun _ => none)) "PATH"
      = setupEnvironment ⟨"/hf"⟩ true (fun _ => none) "PATH" :=
  ⟨(c9_offline_sticky ⟨"/hf"⟩ (fun _ => none)).1.2.1,
   (c9_offline_sticky ⟨"/hf"⟩ (fun _ => none)).2 "PATH" (by decide)⟩

/-! ## Manifest processing (`download_from_file`) -/

/-- The characters removed by Python `str.strip()` (ASCII range). -/
def isPyWS (c : Char) : Bool :=
  c = ' ' || c = '\t' || c = '\n' || c = '\r' || c = '\x0b' || c = '\x0c'

def stripChars (l : List Char) : List Char :=
  ((l.dropWhile isPyWS).reverse.dropWhile isPyWS).reverse

/-- Python `raw_line.strip()`. -/
def pyStrip (s : String) : String := String.mk (stripChars s.data)

/-- Python `split(",")`: always at least one (possibly empty) field. -/
def splitComma : List Char → List (List Char)
  | [] => [[]]
  | c :: rest =>
    match splitComma rest with
    | [] => [[]]
    | h :: t => if c = ',' then [] :: h :: t else (c :: h) :: t

/-- One manifest line: `none` for blank/comment lines, otherwise the
success flag of the dispatched fetch capability.  `fm` stands for
`download_model`, `fd name config split` for `download_dataset`. -/
def processLine (fm : String → Bool)
    (fd : String → Option String → Option String → Bool) (raw : String) :
    Option Bool :=
  let line := pyStrip raw
  if line.isEmpty || sStartsWith line "#" then none
  else if sStartsWith line "dataset:" then
    let parts := splitComma (line.data.drop 8)
    let dsName := String.mk (stripChars (parts.headD []))
    let dsConfig :=
      match parts.drop 1 with
      | p :: _ => let s := stripChars p; if s.isEmpty then none else some (String.mk s)
      | [] => none
    let dsSplit :=
      match parts.drop 2 with
      | p :: _ => let s := stripChars p; if s.isEmpty then none else some (String.mk s)
      | [] => none
    some (fd dsName dsConfig dsSplit)
  else some (fm line)

/-- One step of the tally accumulation. -/
def tallyStep (fm : String → Bool)
    (fd : String → Option String → Option String → Bool)
    (acc : Nat × Nat) (raw : String) : Nat × Nat :=
  match processLine fm fd raw with
  | none => acc
  | some true => (acc.1 + 1, acc.2)
  | some false => (acc.1, acc.2 + 1)

/-- The batch loop of `download_from_file` over the manifest lines. -/
def processLines (fm : String → Bool)
    (fd : String → Option String → Option String → Bool)
    (lines : List String) : Nat × Nat :=
  lines.foldl (tallyStep fm fd) (0, 0)

/-- `download_from_file`: a missing manifest short-circuits to the
tally `(0, 1)` after printing an error; otherwise every line is
processed and the tally returned. -/
def downloadFromFile (fileExists : Bool) (lines : List String)
    (fm : String → Bool)
    (fd : String → Option String → Option String → Bool) : Nat × Nat :=
  if fileExists then processLines fm fd lines else (0, 1)

/-- A manifest line that is dispatched: nonblank after stripping and
not a `#` comment. -/
def effectiveLine (raw : String) : Bool :=
  let line := pyStrip raw
  !(line.isEmpty || sStartsWith line "#")

theorem processLine_none_iff (fm : String → Bool)
    (fd : String → Option String → Option String → Bool) (raw : String) :
    processLine fm fd raw = none ↔ effectiveLine raw = false := by
  unfold processLine effectiveLine
  by_cases h : ((pyStrip raw).isEmpty || sStartsWith (pyStrip raw) "#") = true
  · simp [h]
  · rw [Bool.not_eq_true] at h
    by_cases hd : sStartsWith (pyStrip raw) "dataset:" = true
    · simp [h, hd]
    · rw [Bool.not_eq_true] at hd
      simp [h, hd]

/-- Accumulator shift for the tally fold. -/
theorem foldl_tally_shift (fm : String → Bool)
    (fd : String → Option String → Option String → Bool) :
    ∀ (lines : List String) (acc : Nat × Nat),
      lines.foldl (tallyStep fm fd) acc
        = (acc.1 + (processLines fm fd lines).1, acc.2 + (processLines fm fd lines).2) := by
  intro lines
  induction lines with
  | nil => intro acc; simp [processLines]
  | cons raw rest ih =>
    intro acc
    show rest.foldl (tallyStep fm fd) (tallyStep fm fd acc raw) = _
    have hR : processLines fm fd (raw :: rest)
        = rest.foldl (tallyStep fm fd) (tallyStep fm fd (0, 0) raw) := rfl
    rw [ih (tallyStep fm fd acc raw), hR, ih (tallyStep fm fd (0, 0) raw)]
    unfold tallyStep
    cases hp : processLine fm fd raw with
    | none => simp
    | some b => cases b <;> simp <;> omega

/-- C10: for an existing manifest, the tally partitions exactly the
effective lines — every nonblank non-comment line increments exactly
one of the two counters, blank and `#` lines increment neither. -/
theorem c10_tally_partition (fm : String → Bool)
    (fd : String → Option String → Option String → Bool) (lines : List String) :
    (downloadFromFile true lines fm fd).1 + (downloadFromFile true lines fm fd).2
      = (lines.filter effectiveLine).length := by
  show (processLines fm fd lines).1 + (processLines fm fd lines).2
      = (lines.filter effectiveLine).length
  induction lines with
  | nil => rfl
  | cons raw rest ih =>
    have hR : processLines fm fd (raw :: rest)
        = rest.foldl (tallyStep fm fd) (tallyStep fm fd (0, 0) raw) := rfl
    rw [hR, foldl_tally_shift, List.filter_cons]
    by_cases he : effectiveLine raw = true
    · rw [if_pos he]
      cases hp2 : processLine fm fd raw with
      | none =>
        rw [processLine_none_iff] at hp2
        rw [he] at hp2
        exact absurd hp2 (by simp)
      | some b =>
        unfold tallyStep
        rw [hp2]
        cases b <;> simp <;> omega
    · rw [Bool.not_eq_true] at he
      rw [if_neg (by simp [he])]
      have hp : processLine fm fd raw = none := (processLine_none_iff _ _ _).mpr he
      unfold tallyStep
      rw [hp]
      simpa using ih

/-- C5: the concrete manifest of the spec yields tally `(2, 1)` when
`fetch_model` fails only for `org/model-c` and `fetch_dataset` always
succeeds; in general the tally is additive over manifest
concatenation, so a failing entry only increments the failure counter
and every later entry is still attempted. -/
theorem c5_batch_continue_on_error :
    processLines (fun s => !(s == "org/model-c")) (fun _ _ _ => true)
        ["# comment", "", "org/model-a", "dataset:org/ds-b,config1,train", "org/model-c"]
      = (2, 1) ∧
    ∀ (fm : String → Bool) (fd : String → Option String → Option String → Bool)
      (xs ys : List String),
      processLines fm fd (xs ++ ys)
        = ((processLines fm fd xs).1 + (processLines fm fd ys).1,
           (processLines fm fd xs).2 + (processLines fm fd ys).2) := by
  constructor
  · decide
  · intro fm fd xs ys
    unfold processLines
    rw [List.foldl_append]
    exact foldl_tally_shift fm fd ys _

/-- C3 counterexample: a missing manifest does not fail with an
exception — `download_from_file` returns the ordinary tally `(0, 1)`,
indistinguishable from an existing one-line manifest whose single
fetch failed. -/
theorem c3_missing_manifest_cex :
    downloadFromFile false [] (fun _ => true) (fun _ _ _ => true) = (0, 1) ∧
    downloadFromFile true ["org/m"] (fun _ => false) (fun _ _ _ => true) = (0, 1) := by
  decide

/-- C3 (amended): for a missing manifest path the batch returns the
tally `(0, 1)` immediately, independent of the fetch capabilities —
no fetch is invoked — rather than raising a `NotFoundError`. -/
theorem c3_missing_manifest_amended (lines : List String)
    (fm fm' : String → Bool)
    (fd fd' : String → Option String → Option String → Bool) :
    downloadFromFile false lines fm fd = (0, 1) ∧
    downloadFromFile false lines fm fd = downloadFromFile false lines fm' fd' :=
  ⟨rfl, rfl⟩

/-! ## `verify_offline_ready` -/

/-- `Path.exists()` within the cache state: the path is a file, a
directory, or an ancestor of one. -/
def existsP (fs : FS) (p : FsPath) : Bool :=
  (fs.files ++ fs.dirs).any (fun e => p.isPrefixOf e)

/-- The names of the direct children of `p` (`iterdir` / direct glob),
each listed once. -/
def childNamesAt (fs : FS) (p : FsPath) : List String :=
  ((fs.files ++ fs.dirs).filterMap (fun e =>
    if p.isPrefixOf e then (e.drop p.length).head? else none)).dedup

/-- The hub directory name `f"models--{model_name.replace('/', '--')}"`
used by `verify_offline_ready`. -/
def encodeModelId (modelName : String) : String :=
  "models--" ++ strReplace modelName "/" "--"

/-- The model check: an existing local path is ready iff it holds
weight files; otherwise the encoded hub directory must exist and its
`snapshots` subdirectory must be nonempty. -/
def modelCheck (localExists localHasWeights : Bool) (fs : FS) (modelName : String) :
    Bool :=
  if localExists then localHasWeights
  else
    if existsP fs ["hub", encodeModelId modelName] then
      !(childNamesAt fs ["hub", encodeModelId modelName, "snapshots"]).isEmpty
    else false

/-- The dataset check: `datasets_cache.glob(f"{safe_ds}*")` finds at
least one direct child whose name starts with the encoded prefix. -/
def datasetCheck (fs : FS) (ds : String) : Bool :=
  (childNamesAt fs ["datasets"]).any (fun c => sStartsWith c (encodeDataset ds))

/-- Outcome of `verify_offline_ready`: the returned boolean plus which
checks emitted a failure diagnostic. -/
structure VerifyResult where
  ok : Bool
  modelFailed : Bool
  datasetFailed : Bool
deriving DecidableEq

/-- `verify_offline_ready(model_name, dataset_name)`. -/
def verifyOfflineReady (localExists localHasWeights : Bool) (fs : FS)
    (modelName : String) (datasetName : Option String) : VerifyResult :=
  let mOk := modelCheck localExists localHasWeights fs modelName
  let dFail :=
    if truthy datasetName then !(datasetCheck fs (datasetName.getD "")) else false
  { ok := mOk && !dFail, modelFailed := !mOk, datasetFailed := dFail }

/-- C8: a model identifier that is not a local path and has no encoded
directory under the snapshot store verifies `false` with the model
check marked as the failing diagnostic; in general the verifier
returns `true` iff the model check passes and, when a dataset is
requested, the dataset check passes too. -/
theorem c8_verify_offline_ready (fs : FS) (modelName : String) :
    (∀ w : Bool,
      existsP fs ["hub", encodeModelId modelName] = false →
      verifyOfflineReady false w fs modelName none
        = { ok := false, modelFailed := true, datasetFailed := false }) ∧
    (∀ (localE localW : Bool) (dsName : Option String),
      ((verifyOfflineReady localE localW fs modelName dsName).ok = true ↔
        (modelCheck localE localW fs modelName = true ∧
          (truthy dsName = true → datasetCheck fs (dsName.getD "") = true)))) := by
  constructor
  · intro w h
    unfold verifyOfflineReady modelCheck
    simp [h, truthy]
  · intro localE localW dsName
    unfold verifyOfflineReady
    by_cases ht : truthy dsName = true
    · cases hd : datasetCheck fs (dsName.getD "") <;> simp [ht, hd]
    · rw [Bool.not_eq_true] at ht
      simp [ht]

/-- Witness for C8: an empty cache verifies `org/m` as not offline
ready, with the model as the failing check; and the general
characterisation instantiated at a dataset-bearing call. -/
theorem c8_verify_offline_ready_witness :
    verifyOfflineReady false false ⟨[], []⟩ "org/m" none
      = { ok := false, modelFailed := true, datasetFailed := false } ∧
    ((verifyOfflineReady true true ⟨[], []⟩ "org/m" (some "d")).ok = true ↔
      (modelCheck true true ⟨[], []⟩ "org/m" = true ∧
        (truthy (some "d") = true → datasetCheck ⟨[], []⟩ ((some "d").getD "") = true))) :=
  ⟨(c8_verify_offline_ready ⟨[], []⟩ "org/m").1 false (by decide),
   (c8_verify_offline_ready ⟨[], []⟩ "org/m").2 true true (some "d")⟩
